import Mathlib

/-!
Verification of the PinkSlipper featurization pipeline
(`src/Pipeline/featurize_realtime.py`), shallowly embedded in Lean.

Strings are modelled by Lean `String`, Python `None`/missing values by
`Option`, Python exceptions by `Except Unit`, Python dicts by ordered
association lists, and the MongoDB stores by lists.  Floating point
relative positions (`i / float(num_words)`) are modelled exactly in `ℚ`.
-/

/-! ### Decimal keys: embedding of Python `str(i)` for label-map keys -/

/-- Decimal digits of a natural number, most significant digit first,
with explicit fuel so that the definition is structural and computable. -/
def natDigitsAux : Nat → Nat → List Nat
  | 0, _ => []
  | fuel + 1, n => if n < 10 then [n] else natDigitsAux fuel (n / 10) ++ [n % 10]

def natDigits (n : Nat) : List Nat := natDigitsAux (n + 1) n

def digitChar : Nat → Char
  | 0 => '0'
  | 1 => '1'
  | 2 => '2'
  | 3 => '3'
  | 4 => '4'
  | 5 => '5'
  | 6 => '6'
  | 7 => '7'
  | 8 => '8'
  | _ => '9'

/-- Embedding of Python `str(i)` on natural numbers (decimal numeral). -/
def natKey (n : Nat) : String := String.mk ((natDigits n).map digitChar)

theorem natDigitsAux_stable : ∀ f g n, n < f → n < g → natDigitsAux f n = natDigitsAux g n := by
  intro f
  induction f with
  | zero => intro g n h _; omega
  | succ f ih =>
    intro g n hf hg
    cases g with
    | zero => omega
    | succ g =>
      simp only [natDigitsAux]
      by_cases h10 : n < 10
      · simp [h10]
      · have hdiv : n / 10 < n := Nat.div_lt_self (by omega) (by omega)
        simp only [if_neg h10]
        rw [ih g (n / 10) (by omega) (by omega)]

theorem natDigitsAux_ne_nil (f n : Nat) (h : 0 < f) : natDigitsAux f n ≠ [] := by
  cases f with
  | zero => omega
  | succ f =>
    simp only [natDigitsAux]
    by_cases h10 : n < 10 <;> simp [h10]

theorem natDigitsAux_inj : ∀ f a b, a < f → b < f → natDigitsAux f a = natDigitsAux f b → a = b := by
  intro f
  induction f with
  | zero => intro a b ha _ _; omega
  | succ f ih =>
    intro a b ha hb h
    simp only [natDigitsAux] at h
    by_cases ha10 : a < 10 <;> by_cases hb10 : b < 10
    · simpa [ha10, hb10] using h
    · exfalso
      rw [if_pos ha10, if_neg hb10] at h
      have hne : natDigitsAux f (b / 10) ≠ [] := natDigitsAux_ne_nil f (b / 10) (by omega)
      apply hne
      have hlen := congrArg List.length h
      simp only [List.length_cons, List.length_nil, List.length_append] at hlen
      exact List.length_eq_zero.mp (by omega)
    · exfalso
      rw [if_neg ha10, if_pos hb10] at h
      have hne : natDigitsAux f (a / 10) ≠ [] := natDigitsAux_ne_nil f (a / 10) (by omega)
      apply hne
      have hlen := congrArg List.length h
      simp only [List.length_cons, List.length_nil, List.length_append] at hlen
      exact List.length_eq_zero.mp (by omega)
    · rw [if_neg ha10, if_neg hb10] at h
      have hda : a / 10 < a := Nat.div_lt_self (by omega) (by omega)
      have hdb : b / 10 < b := Nat.div_lt_self (by omega) (by omega)
      obtain ⟨h1, h2⟩ := List.append_inj' h rfl
      have hdiv : a / 10 = b / 10 := ih (a / 10) (b / 10) (by omega) (by omega) h1
      have hmod : a % 10 = b % 10 := by simpa using h2
      omega

theorem digitChar_inj : ∀ a, a < 10 → ∀ b, b < 10 → digitChar a = digitChar b → a = b := by decide

theorem natDigitsAux_lt : ∀ f n d, d ∈ natDigitsAux f n → d < 10 := by
  intro f
  induction f with
  | zero => intro n d hd; simp [natDigitsAux] at hd
  | succ f ih =>
    intro n d hd
    simp only [natDigitsAux] at hd
    by_cases h10 : n < 10
    · rw [if_pos h10] at hd
      simp at hd
      omega
    · rw [if_neg h10] at hd
      rcases List.mem_append.mp hd with hd | hd
      · exact ih _ _ hd
      · have : d = n % 10 := by simpa using hd
        subst this
        exact Nat.mod_lt _ (by omega)

theorem map_digitChar_inj : ∀ (l1 l2 : List Nat), (∀ d ∈ l1, d < 10) → (∀ d ∈ l2, d < 10) →
    l1.map digitChar = l2.map digitChar → l1 = l2 := by
  intro l1
  induction l1 with
  | nil =>
    intro l2 _ _ h
    cases l2 with
    | nil => rfl
    | cons b m => simp at h
  | cons a l ih =>
    intro l2 h1 h2 h
    cases l2 with
    | nil => simp at h
    | cons b m =>
      simp only [List.map_cons, List.cons.injEq] at h
      have hab : a = b :=
        digitChar_inj a (h1 a (by simp)) b (h2 b (by simp)) h.1
      have htl : l = m :=
        ih m (fun d hd => h1 d (by simp [hd])) (fun d hd => h2 d (by simp [hd])) h.2
      rw [hab, htl]

theorem natKey_inj : ∀ a b, natKey a = natKey b → a = b := by
  intro a b h
  have h1 : (natDigits a).map digitChar = (natDigits b).map digitChar := by
    have := String.ext_iff.mp h
    simpa [natKey] using this
  have h2 : natDigits a = natDigits b :=
    map_digitChar_inj _ _ (fun d hd => natDigitsAux_lt _ _ _ hd)
      (fun d hd => natDigitsAux_lt _ _ _ hd) h1
  have h3 : natDigitsAux (a + b + 1) a = natDigitsAux (a + b + 1) b := by
    calc natDigitsAux (a + b + 1) a
        = natDigitsAux (a + 1) a := natDigitsAux_stable _ _ _ (by omega) (by omega)
      _ = natDigitsAux (b + 1) b := h2
      _ = natDigitsAux (a + b + 1) b := natDigitsAux_stable _ _ _ (by omega) (by omega)
  exact natDigitsAux_inj _ _ _ (by omega) (by omega) h3

/-! ### Python string primitives -/

/-- Python `s.find(sub)` restricted to success: the smallest character index
at which `sub` occurs in `s`, or `none` (Python's `-1`). -/
def pyFind (s sub : String) : Option Nat :=
  (List.range (s.toList.length + 1)).find? (fun i => sub.toList.isPrefixOf (s.toList.drop i))

/-- Python `s.split(sep, 1)` for a non-empty separator: two pieces around the
first occurrence, or the whole string when the separator is absent. -/
def pySplitOnce (s sep : String) : List String :=
  match pyFind s sep with
  | some i => [String.mk (s.toList.take i), String.mk (s.toList.drop (i + sep.toList.length))]
  | none => [s]

/-- Python `s.split(sep, 1)` including the `ValueError` raised on an empty
separator. -/
def pySplitOnceE (s sep : String) : Except Unit (List String) :=
  if sep = "" then .error () else .ok (pySplitOnce s sep)

/-- Python `s.strip()`: drop leading and trailing whitespace.  (Implemented
structurally on the character list so that it evaluates by kernel
reduction.) -/
def pyStrip (s : String) : String :=
  String.mk (((s.toList.dropWhile Char.isWhitespace).reverse.dropWhile Char.isWhitespace).reverse)

/-- Split a character list at whitespace characters (pieces may be empty). -/
def splitWsAux : List Char → List Char → List String
  | [], acc => [String.mk acc.reverse]
  | c :: cs, acc =>
    if c.isWhitespace then String.mk acc.reverse :: splitWsAux cs []
    else splitWsAux cs (c :: acc)

/-- Python `s.split()`: split on whitespace runs, dropping empty pieces. -/
def pySplit (s : String) : List String :=
  (splitWsAux s.toList []).filter (fun w => w ≠ "")

def isCased (c : Char) : Bool := c.isLower || c.isUpper

/-- Python `w.islower()`: at least one cased character and no cased character
is other than lowercase. -/
def py_islower (w : String) : Bool :=
  w.toList.any isCased && w.toList.all (fun c => !(isCased c) || c.isLower)

/-- Python `w.isupper()`. -/
def py_isupper (w : String) : Bool :=
  w.toList.any isCased && w.toList.all (fun c => !(isCased c) || c.isUpper)

/-- Python `i / float(n)` with its `ZeroDivisionError`, modelled exactly in ℚ. -/
def pyDiv (a b : Nat) : Except Unit ℚ :=
  if b = 0 then .error () else .ok ((a : ℚ) / (b : ℚ))

theorem pyFind_empty (s : String) : pyFind s "" = some 0 := by
  have : (List.range (s.toList.length + 1)) = 0 :: (List.range s.toList.length).map Nat.succ :=
    List.range_succ_eq_map _
  simp [pyFind, this, List.find?_cons, List.isPrefixOf]

/-! ### PageContextExtractor: DOM model and `featurize_page_soup` -/

/-- A node of the parsed listing-page HTML.  `imgSrc` is the `src` attribute
of the nested `<img>` element, when both exist. -/
structure DomNode where
  nid : Nat
  classes : List String
  href : Option String
  txt : String
  imgSrc : Option String
  parent : Option Nat
  prevSib : Option Nat
  nextSib : Option Nat
deriving DecidableEq

/-- The parsed listing page; list order is document order. -/
structure Dom where
  nodes : List DomNode
deriving DecidableEq

def Dom.byId (d : Dom) (i : Nat) : Option DomNode :=
  d.nodes.find? (fun n => n.nid == i)

/-- `soup.find(class_=c, href=link)` -/
def Dom.findClassHref (d : Dom) (c link : String) : Option DomNode :=
  d.nodes.find? (fun n => n.classes.contains c && n.href == some link)

/-- `soup.find(href=link)` -/
def Dom.findHref (d : Dom) (link : String) : Option DomNode :=
  d.nodes.find? (fun n => n.href == some link)

/-- `node.find_parent()` -/
def Dom.parentOf (d : Dom) (n : DomNode) : Option DomNode :=
  n.parent.bind d.byId

/-- `node.find_previous_sibling()` -/
def Dom.prevSibOf (d : Dom) (n : DomNode) : Option DomNode :=
  n.prevSib.bind d.byId

/-- `node.find_next_sibling()` -/
def Dom.nextSibOf (d : Dom) (n : DomNode) : Option DomNode :=
  n.nextSib.bind d.byId

/-- Is `anc` a strict ancestor of `n`?  Walks the parent chain with fuel. -/
def Dom.isAncestor (d : Dom) : Nat → Nat → DomNode → Bool
  | 0, _, _ => false
  | fuel + 1, anc, n =>
    match n.parent with
    | none => false
    | some p =>
      p == anc ||
        (match d.byId p with
         | none => false
         | some pn => d.isAncestor fuel anc pn)

/-- `node.find(class_=c)`: first descendant of `root` with class `c`,
in document order. -/
def Dom.findClassWithin (d : Dom) (root : DomNode) (c : String) : Option DomNode :=
  d.nodes.find? (fun n => n.classes.contains c && d.isAncestor d.nodes.length root.nid n)

structure PageData where
  date : String
  time : String
  summary : String
  img : String
deriving DecidableEq

/-- The unprotected navigation at the top of `featurize_page_soup`:
`soup.find(class_='news-release', href=link).find_parent().find_parent()
.find_parent().find_previous_sibling()`.  Every `None` receiver raises an
uncaught `AttributeError`; only the final sibling step may yield `None`
without raising. -/
def navRelease (d : Dom) (link : String) : Except Unit (Option DomNode) :=
  match d.findClassHref "news-release" link with
  | none => .error ()
  | some a =>
    match d.parentOf a with
    | none => .error ()
    | some p1 =>
      match d.parentOf p1 with
      | none => .error ()
      | some p2 =>
        match d.parentOf p2 with
        | none => .error ()
        | some p3 => .ok (d.prevSibOf p3)

/-- `try: date = s.find(class_='date').text.strip() except: date = ''` -/
def extract_date (d : Dom) (s? : Option DomNode) : String :=
  match s? with
  | none => ""
  | some s =>
    match d.findClassWithin s "date" with
    | none => ""
    | some n => pyStrip n.txt

/-- `try: time = s.find(class_='time').text.strip() except: time = ''` -/
def extract_time (d : Dom) (s? : Option DomNode) : String :=
  match s? with
  | none => ""
  | some s =>
    match d.findClassWithin s "time" with
    | none => ""
    | some n => pyStrip n.txt

/-- `try: img = soup.find(href=link).img['src'] except: img = ''` -/
def extract_img (d : Dom) (link : String) : String :=
  match d.findHref link with
  | none => ""
  | some n =>
    match n.imgSrc with
    | none => ""
    | some src => src

/-- `try: summary = soup.find(class_='news-release', href=link)
.find_parent().find_next_sibling().text.strip() except: summary = ''` -/
def extract_summary (d : Dom) (link : String) : String :=
  match d.findClassHref "news-release" link with
  | none => ""
  | some a =>
    match d.parentOf a with
    | none => ""
    | some p =>
      match d.nextSibOf p with
      | none => ""
      | some sib => pyStrip sib.txt

/-- `featurize_page_soup(soup, link)`: the unprotected navigation first, then
the four independently guarded extractions. -/
def featurize_page_soup (d : Dom) (link : String) : Except Unit PageData :=
  match navRelease d link with
  | .error e => .error e
  | .ok s? =>
    .ok { date := extract_date d s?
          time := extract_time d s?
          summary := extract_summary d link
          img := extract_img d link }

/-! ### FeatureEngineer: `feature_engineering` -/

/-- The fields of the merged record dict that `feature_engineering` reads.
A `none` field models a missing key (Python `KeyError` inside the guarded
blocks). -/
structure FEInput where
  body : Option String
  date : Option String
  meta_desc : Option String
  authors : Option (List String)
deriving DecidableEq

/-- `try: text = data['body'].split('/ -- ', 1)[1].strip() except: text = None` -/
def fe_text (d : FEInput) : Option String :=
  match d.body with
  | none => none
  | some b =>
    match (pySplitOnce b "/ -- ").get? 1 with
    | none => none
    | some after => some (pyStrip after)

/-- The location block of `feature_engineering`: `month = data['date'][:3]`,
then `data['meta_desc'].find(month) > -1` and
`data['meta_desc'].split(month, 1)[0].strip()`, with the whole block guarded
by `except: location = None` (this also catches the `ValueError` raised by
`split` on an empty separator). -/
def fe_location (d : FEInput) : Option String :=
  match d.date, d.meta_desc with
  | some date, some md =>
    let month := String.mk (date.toList.take 3)
    if (pyFind md month).isSome then
      match pySplitOnceE md month with
      | .ok parts => some (pyStrip (parts.headD ""))
      | .error _ => none
    else none
  | _, _ => none

/-- `try: org = data['authors'][0] except: org = None` -/
def fe_org (d : FEInput) : Option String :=
  match d.authors with
  | some (a :: _) => some a
  | _ => none

/-- Python truthiness of an optional string: non-null and non-empty. -/
def truthy : Option String → Bool
  | none => false
  | some s => s ≠ ""

/-- `feature_engineering(data)`: returns the `{'text','location','org'}` dict
when `if text and org and location:` holds, and the empty dict otherwise. -/
def feature_engineering (d : FEInput) : Option (String × String × String) :=
  match fe_text d, fe_location d, fe_org d with
  | some t, some l, some o => if t ≠ "" ∧ o ≠ "" ∧ l ≠ "" then some (t, l, o) else none
  | _, _, _ => none

/-- Modelled from the claim wording (C4): `text` is the trimmed substring
after the first occurrence of the delimiter, null when absent or body
missing. -/
def text_spec (b? : Option String) : Option String :=
  match b? with
  | none => none
  | some b =>
    match pyFind b "/ -- " with
    | none => none
    | some i => some (pyStrip (String.mk (b.toList.drop (i + ("/ -- ".toList.length)))))

/-- Modelled from the claim wording (C5): `location` is the trimmed
meta-description text before the first occurrence of the (up to) 3-character
date prefix whenever that prefix occurs, and null otherwise or on missing
inputs. -/
def location_spec (date? md? : Option String) : Option String :=
  match date?, md? with
  | some date, some md =>
    let pre := String.mk (date.toList.take 3)
    match pyFind md pre with
    | some i => some (pyStrip (String.mk (md.toList.take i)))
    | none => none
  | _, _ => none

/-- The amended C5 statement: as `location_spec`, except that an empty date
prefix (empty date string) yields null, because the code's split on the
empty anchor raises a `ValueError` that the guard converts to `None`. -/
def location_amended (date? md? : Option String) : Option String :=
  match date?, md? with
  | some date, some md =>
    let pre := String.mk (date.toList.take 3)
    if pre = "" then none
    else
      match pyFind md pre with
      | some i => some (pyStrip (String.mk (md.toList.take i)))
      | none => none
  | _, _ => none

/-! ### Dicts, `featurize`, and the document stores -/

/-- A raw scraped document from the `prnewswire` collection.  `pulled` is the
processed marker (`{'$exists': False}` until set). -/
structure RawDoc where
  _id : String
  link : String
  source : String
  body_soup : String
  page_soup : Dom
  pulled : Option String
deriving DecidableEq

/-- The structured article record that `newspaper.Article(link);
article.download(html=soup); article.parse()` produces.  The parsing
capability itself is external; it is passed in as a function. -/
structure Article where
  authors : List String
  text : String
  meta_keywords : List String
  meta_lang : String
  meta_description : String
  source_url : String
deriving DecidableEq

/-- One token-feature record of the label map.  Absent Python dict keys
(`POS`, `ner` before tagging) are `none`. -/
structure LabelFeat where
  word : String
  all_lower : Bool
  all_upper : Bool
  word_pct : ℚ
  POS : Option String
  ner : Option String
deriving DecidableEq

/-- The `label` dict: insertion-ordered map from stringified token position
to token features. -/
abbrev LabelMap := List (String × LabelFeat)

/-- A value stored in the per-document feature dict. -/
inductive Val where
  | s : String → Val
  | strs : List String → Val
  | lab : LabelMap → Val
deriving DecidableEq

/-- A Python dict with string keys, modelled as an insertion-ordered
association list with unique keys (assignment replaces in place, new keys
are appended, `del` removes). -/
abbrev FeatDict := List (String × Val)

def dictGet : FeatDict → String → Option Val
  | [], _ => none
  | (k, v) :: rest, key => if k == key then some v else dictGet rest key

def dictHas (d : FeatDict) (key : String) : Bool := (dictGet d key).isSome

/-- Python dict assignment `d[key] = v`. -/
def dictSet : FeatDict → String → Val → FeatDict
  | [], key, v => [(key, v)]
  | (k, w) :: rest, key, v =>
    if k == key then (k, v) :: rest else (k, w) :: dictSet rest key v

/-- Python `d.update(kvs)`. -/
def dictUpd (d : FeatDict) (kvs : List (String × Val)) : FeatDict :=
  kvs.foldl (fun a kv => dictSet a kv.1 kv.2) d

/-- Python `del d[key]`, raising `KeyError` when the key is absent. -/
def delE : FeatDict → String → Except Unit FeatDict
  | [], _ => .error ()
  | (k, v) :: rest, key =>
    if k == key then .ok rest else (delE rest key).map (fun r => (k, v) :: r)

def dictKeys (d : FeatDict) : List String := d.map Prod.fst

def Val.asStr : Val → Option String
  | .s x => some x
  | _ => none

def Val.asStrs : Val → Option (List String)
  | .strs l => some l
  | _ => none

/-- The literal dict built at the top of `featurize`, in source order. -/
def baseData (article : Article) (doc : RawDoc) : FeatDict :=
  [("_id", .s doc._id),
   ("link", .s doc.link),
   ("source", .s doc.source),
   ("authors", .strs article.authors),
   ("body", .s article.text),
   ("keywords", .strs article.meta_keywords),
   ("lang", .s article.meta_lang),
   ("meta_desc", .s article.meta_description),
   ("source_url", .s article.source_url)]

def pageDict (pd : PageData) : List (String × Val) :=
  [("date", .s pd.date), ("time", .s pd.time), ("summary", .s pd.summary), ("img", .s pd.img)]

/-- How `feature_engineering` reads its input out of the merged dict. -/
def feInputOfDict (d : FeatDict) : FEInput :=
  { body := (dictGet d "body").bind Val.asStr
    date := (dictGet d "date").bind Val.asStr
    meta_desc := (dictGet d "meta_desc").bind Val.asStr
    authors := (dictGet d "authors").bind Val.asStrs }

/-- The dict returned by `feature_engineering`: the full triple or empty. -/
def feDict : Option (String × String × String) → List (String × Val)
  | none => []
  | some (t, l, o) => [("text", .s t), ("location", .s l), ("org", .s o)]

/-- The merged dict after `data.update(additional_data)`: article fields
plus page context. -/
def midDict (parse : String → String → Article) (doc : RawDoc) (pd : PageData) : FeatDict :=
  dictUpd (baseData (parse doc.link doc.body_soup) doc) (pageDict pd)

/-- `featurize(doc)`: build the article record, merge the page context and
the engineered features, then delete the intermediate fields.  An exception
anywhere (page-soup navigation) propagates. -/
def featurize (parse : String → String → Article) (doc : RawDoc) : Except Unit FeatDict :=
  match featurize_page_soup doc.page_soup doc.link with
  | .error e => .error e
  | .ok pd =>
    let data := dictUpd (midDict parse doc pd) (feDict (feature_engineering (feInputOfDict (midDict parse doc pd))))
    match delE data "authors" with
    | .error e => .error e
    | .ok data1 =>
      match delE data1 "meta_desc" with
      | .error e => .error e
      | .ok data2 =>
        match delE data2 "body" with
        | .error e => .error e
        | .ok data3 => .ok data3

/-! ### TokenLabeler: `get_POS`, `get_ner`, `get_labels` -/

/-- Look up `label[key]` and mutate one field of the inner dict in place;
`KeyError` when the key is absent. -/
def labSetField (lab : LabelMap) (key : String) (f : LabelFeat → LabelFeat) :
    Except Unit LabelMap :=
  match lab with
  | [] => .error ()
  | (k, v) :: rest =>
    if k == key then .ok ((k, f v) :: rest)
    else (labSetField rest key f).map (fun r => (k, v) :: r)

/-- `label[str(i)] = {...}` during the build loop of `get_labels`. -/
def labSet : LabelMap → String → LabelFeat → LabelMap
  | [], key, v => [(key, v)]
  | (k, w) :: rest, key, v =>
    if k == key then (k, v) :: rest else (k, w) :: labSet rest key v

def labKeys (lab : LabelMap) : List String := lab.map Prod.fst

/-- `label[str(i)]['POS'] = pos` -/
def setPOS (t : String) (f : LabelFeat) : LabelFeat := { f with POS := some t }

/-- `label[str(i)]['ner'] = ner` -/
def setNer (t : String) (f : LabelFeat) : LabelFeat := { f with ner := some t }

/-- The shared merge loop of `get_POS` and `get_ner`:
`for i, (word, tag) in enumerate(tpls): label[str(i)][fld] = tag`. -/
def tagFold (g : String → LabelFeat → LabelFeat) (tpls : List (String × String))
    (label : LabelMap) : Except Unit LabelMap :=
  tpls.enum.foldlM (fun l ip => labSetField l (natKey ip.1) (g ip.2.2)) label

/-- `get_POS(title, label, st_pos)`: tag the whitespace-split headline and
write `label[str(i)]['POS'] = pos` for each enumerated tag pair. -/
def get_POS (title : String) (label : LabelMap)
    (st_pos : List String → List (String × String)) : Except Unit LabelMap :=
  tagFold setPOS (st_pos (pySplit title)) label

/-- `get_ner(title, label, st_ner)`. -/
def get_ner (title : String) (label : LabelMap)
    (st_ner : List String → List (String × String)) : Except Unit LabelMap :=
  tagFold setNer (st_ner (pySplit title)) label

/-- One iteration of the build loop of `get_labels`, including the division
`i / float(num_words)`. -/
def buildStep (num_words : Nat) (lab : LabelMap) (iw : Nat × String) : Except Unit LabelMap :=
  match pyDiv iw.1 num_words with
  | .error e => .error e
  | .ok pct =>
    .ok (labSet lab (natKey iw.1)
      { word := iw.2
        all_lower := py_islower iw.2
        all_upper := py_isupper iw.2
        word_pct := pct
        POS := none
        ner := none })

/-- `get_labels(title, st_pos, st_ner)`. -/
def get_labels (title : String)
    (st_pos st_ner : List String → List (String × String)) : Except Unit LabelMap :=
  match (pySplit title).enum.foldlM (buildStep (pySplit title).length) ([] : LabelMap) with
  | .error e => .error e
  | .ok label =>
    match get_POS title label st_pos with
    | .error e => .error e
    | .ok label1 =>
      match get_ner title label1 st_ner with
      | .error e => .error e
      | .ok label2 => .ok label2

/-- Modelled from the claim wording (C7): the expected label map for a
headline whose taggers return one tag per token: entry `i` keyed `str(i)`
holds the `i`-th raw token, its case flags, relative position `i / n`, and
the positional POS and NER tags. -/
def labelMapSpec (words posTags nerTags : List String) : LabelMap :=
  (List.range words.length).map (fun i =>
    (natKey i,
      { word := words.getD i ""
        all_lower := py_islower (words.getD i "")
        all_upper := py_isupper (words.getD i "")
        word_pct := (i : ℚ) / (words.length : ℚ)
        POS := posTags.get? i
        ner := nerTags.get? i }))

/-! ### Orchestration: the `__main__` loop -/

/-- The two MongoDB collections touched by the pipeline. -/
structure Store where
  prnewswire : List RawDoc
  pr_realtime : List FeatDict
deriving DecidableEq

/-- The query filter `{'source': 'personnel-announcements-list',
'pulled': {'$exists': False}}`. -/
def sourceFilter (d : RawDoc) : Bool :=
  d.source == "personnel-announcements-list" && d.pulled.isNone

/-- `db.prnewswire.update_one({'_id': id}, {'$set': {'pulled': 'yes'}})`:
set the marker on the first document matching the id. -/
def markPulled : List RawDoc → String → List RawDoc
  | [], _ => []
  | d :: rest, i =>
    if d._id == i then { d with pulled := some "yes" } :: rest
    else d :: markPulled rest i

/-- One iteration of the main loop: featurize, conditionally label and
insert, then mark.  The `Bool` is `false` when an uncaught exception aborts
the pass, leaving the stores as they were at the point of the crash. -/
def processDoc (parse : String → String → Article)
    (st_pos st_ner : List String → List (String × String))
    (st : Store) (doc : RawDoc) : Store × Bool :=
  match featurize parse doc with
  | .error _ => (st, false)
  | .ok df =>
    if dictHas df "text" then
      match dictGet df "_id" with
      | some (Val.s title) =>
        match get_labels title st_pos st_ner with
        | .error _ => (st, false)
        | .ok lab =>
          let st1 : Store :=
            { st with pr_realtime := st.pr_realtime ++ [dictSet df "label" (Val.lab lab)] }
          ({ st1 with prnewswire := markPulled st1.prnewswire doc._id }, true)
      | _ => (st, false)
    else
      ({ st with prnewswire := markPulled st.prnewswire doc._id }, true)

/-- The loop over the snapshot cursor; stops at the first uncaught
exception. -/
def runAux (parse : String → String → Article)
    (st_pos st_ner : List String → List (String × String)) :
    Store → List RawDoc → Store × Bool
  | st, [] => (st, true)
  | st, d :: ds =>
    let r := processDoc parse st_pos st_ner st d
    if r.2 then runAux parse st_pos st_ner r.1 ds else (r.1, false)

/-- The whole `__main__` pass: query the snapshot cursor, then loop. -/
def runMain (parse : String → String → Article)
    (st_pos st_ner : List String → List (String × String)) (st : Store) : Store × Bool :=
  runAux parse st_pos st_ner st (st.prnewswire.filter sourceFilter)

/-! ### Concrete fixtures for witnesses and counterexamples -/

/-- A stub article parser used in concrete runs. -/
def cParse : String → String → Article := fun _ _ =>
  { authors := ["Acme Corp"]
    text := "x/ -- Hello World"
    meta_keywords := []
    meta_lang := "en"
    meta_description := "LONDON Jan news"
    source_url := "u" }

/-- A stub POS tagging capability: one tag per input token. -/
def cPT : List String → List (String × String) := fun ts => ts.map (fun w => (w, "NNP"))

/-- A stub NER tagging capability: one tag per input token. -/
def cNT : List String → List (String × String) := fun ts => ts.map (fun w => (w, "O"))

/-- An empty listing page: the news-release anchor lookup fails. -/
def cDomCrash : Dom := { nodes := [] }

def cDocCrash : RawDoc :=
  { _id := "Acme Names CEO", link := "L", source := "personnel-announcements-list",
    body_soup := "", page_soup := cDomCrash, pulled := none }

def cStoreCrash : Store := { prnewswire := [cDocCrash], pr_realtime := [] }

/-- A listing page where the navigation succeeds but the preceding sibling is
absent, so all four page-context fields default to the empty string. -/
def cDomPartial : Dom :=
  { nodes :=
      [{ nid := 0, classes := ["news-release"], href := some "L", txt := "", imgSrc := none,
         parent := some 1, prevSib := none, nextSib := none },
       { nid := 1, classes := [], href := none, txt := "", imgSrc := none,
         parent := some 2, prevSib := none, nextSib := none },
       { nid := 2, classes := [], href := none, txt := "", imgSrc := none,
         parent := some 3, prevSib := none, nextSib := none },
       { nid := 3, classes := [], href := none, txt := "", imgSrc := none,
         parent := none, prevSib := none, nextSib := none }] }

def cDocPartial : RawDoc :=
  { _id := "Acme Names CEO", link := "L", source := "personnel-announcements-list",
    body_soup := "", page_soup := cDomPartial, pulled := none }

def cStorePartial : Store := { prnewswire := [cDocPartial], pr_realtime := [] }

/-- A listing page on which every extraction succeeds: the anchor has three
ancestors whose preceding sibling holds date and time children, the anchor
carries an image, and the anchor's parent has a summary sibling. -/
def cDomFull : Dom :=
  { nodes :=
      [{ nid := 0, classes := ["news-release"], href := some "L", txt := "", imgSrc := some "img.png",
         parent := some 1, prevSib := none, nextSib := none },
       { nid := 1, classes := [], href := none, txt := "", imgSrc := none,
         parent := some 2, prevSib := none, nextSib := some 7 },
       { nid := 2, classes := [], href := none, txt := "", imgSrc := none,
         parent := some 3, prevSib := none, nextSib := none },
       { nid := 3, classes := [], href := none, txt := "", imgSrc := none,
         parent := none, prevSib := some 4, nextSib := none },
       { nid := 4, classes := [], href := none, txt := "", imgSrc := none,
         parent := none, prevSib := none, nextSib := none },
       { nid := 5, classes := ["date"], href := none, txt := " Jan 5, 2015 ", imgSrc := none,
         parent := some 4, prevSib := none, nextSib := none },
       { nid := 6, classes := ["time"], href := none, txt := "09:00 ET", imgSrc := none,
         parent := some 4, prevSib := none, nextSib := none },
       { nid := 7, classes := [], href := none, txt := " A summary. ", imgSrc := none,
         parent := some 2, prevSib := none, nextSib := none }] }

def cDocFull : RawDoc :=
  { _id := "Acme Names CEO", link := "L", source := "personnel-announcements-list",
    body_soup := "", page_soup := cDomFull, pulled := none }

def cStoreFull : Store := { prnewswire := [cDocFull], pr_realtime := [] }


/-! ### Lemmas about `feature_engineering` -/

theorem fe_text_eq_spec (d : FEInput) : fe_text d = text_spec d.body := by
  cases hb : d.body with
  | none => simp [fe_text, text_spec, hb]
  | some b =>
    simp only [fe_text, text_spec, hb, pySplitOnce]
    cases h : pyFind b "/ -- " with
    | none => simp
    | some i => simp

theorem fe_location_eq_amended (d : FEInput) :
    fe_location d = location_amended d.date d.meta_desc := by
  cases hd : d.date with
  | none => cases hm : d.meta_desc <;> simp [fe_location, location_amended, hd, hm]
  | some date =>
    cases hm : d.meta_desc with
    | none => simp [fe_location, location_amended, hd, hm]
    | some md =>
      simp only [fe_location, location_amended, hd, hm]
      by_cases hpre : String.mk (date.toList.take 3) = ""
      · simp only [hpre, if_pos, pyFind_empty, Option.isSome_some, if_true, pySplitOnceE,
          if_pos rfl]
      · simp only [if_neg hpre, pySplitOnceE, pySplitOnce]
        cases h : pyFind md (String.mk (date.toList.take 3)) with
        | none => simp [h]
        | some i => simp [h]

theorem fe_isSome_eq_truthy (d : FEInput) :
    (feature_engineering d).isSome =
      (truthy (fe_text d) && truthy (fe_org d) && truthy (fe_location d)) := by
  unfold feature_engineering
  cases h1 : fe_text d with
  | none => simp [truthy]
  | some t =>
    cases h2 : fe_location d with
    | none => cases h3 : fe_org d <;> simp [truthy]
    | some l =>
      cases h3 : fe_org d with
      | none => simp [truthy]
      | some o =>
        by_cases ht : t = "" <;> by_cases ho : o = "" <;> by_cases hl : l = "" <;>
          simp [truthy, ht, ho, hl]

/-! ### Lemmas about `featurize` and `processDoc` -/

/-- The persisted dict when the engineered triple is absent. -/
def outDictPartial (a : Article) (doc : RawDoc) (pd : PageData) : FeatDict :=
  [("_id", .s doc._id), ("link", .s doc.link), ("source", .s doc.source),
   ("keywords", .strs a.meta_keywords), ("lang", .s a.meta_lang),
   ("source_url", .s a.source_url), ("date", .s pd.date), ("time", .s pd.time),
   ("summary", .s pd.summary), ("img", .s pd.img)]

/-- The persisted dict when the engineered triple is present. -/
def outDictFull (a : Article) (doc : RawDoc) (pd : PageData) (t l o : String) : FeatDict :=
  outDictPartial a doc pd ++ [("text", .s t), ("location", .s l), ("org", .s o)]

/-- The `FEInput` that `feature_engineering` reads out of the merged dict. -/
def feInputAt (parse : String → String → Article) (doc : RawDoc) (pd : PageData) : FEInput :=
  feInputOfDict (midDict parse doc pd)

theorem feInputAt_eq (parse : String → String → Article) (doc : RawDoc) (pd : PageData) :
    feInputAt parse doc pd =
      { body := some (parse doc.link doc.body_soup).text
        date := some pd.date
        meta_desc := some (parse doc.link doc.body_soup).meta_description
        authors := some (parse doc.link doc.body_soup).authors } := rfl

theorem featurize_page_err (parse : String → String → Article) (doc : RawDoc)
    (h : featurize_page_soup doc.page_soup doc.link = .error ()) :
    featurize parse doc = .error () := by
  simp [featurize, h]

theorem featurize_ok_of_none (parse : String → String → Article) (doc : RawDoc) (pd : PageData)
    (hp : featurize_page_soup doc.page_soup doc.link = .ok pd)
    (hfe : feature_engineering (feInputAt parse doc pd) = none) :
    featurize parse doc = .ok (outDictPartial (parse doc.link doc.body_soup) doc pd) := by
  simp only [featurize, hp]
  rw [show feInputOfDict (midDict parse doc pd) = feInputAt parse doc pd from rfl, hfe]
  rfl

theorem featurize_ok_of_some (parse : String → String → Article) (doc : RawDoc) (pd : PageData)
    (t l o : String) (hp : featurize_page_soup doc.page_soup doc.link = .ok pd)
    (hfe : feature_engineering (feInputAt parse doc pd) = some (t, l, o)) :
    featurize parse doc = .ok (outDictFull (parse doc.link doc.body_soup) doc pd t l o) := by
  simp only [featurize, hp]
  rw [show feInputOfDict (midDict parse doc pd) = feInputAt parse doc pd from rfl, hfe]
  rfl

theorem dictHas_outDictPartial (a : Article) (doc : RawDoc) (pd : PageData) :
    dictHas (outDictPartial a doc pd) "text" = false := rfl

theorem dictHas_outDictFull (a : Article) (doc : RawDoc) (pd : PageData) (t l o : String) :
    dictHas (outDictFull a doc pd t l o) "text" = true := rfl

theorem dictKeys_outDictFull_label (a : Article) (doc : RawDoc) (pd : PageData)
    (t l o : String) (lm : LabelMap) :
    dictKeys (dictSet (outDictFull a doc pd t l o) "label" (Val.lab lm)) =
      ["_id", "link", "source", "keywords", "lang", "source_url", "date", "time",
       "summary", "img", "text", "location", "org", "label"] := rfl

theorem processDoc_of_false (parse : String → String → Article)
    (st_pos st_ner : List String → List (String × String)) (st : Store) (doc : RawDoc)
    (h : (processDoc parse st_pos st_ner st doc).2 = false) :
    (processDoc parse st_pos st_ner st doc).1 = st := by
  unfold processDoc at h ⊢
  cases hf : featurize parse doc with
  | error e => simp [hf]
  | ok df =>
    simp only [hf] at h ⊢
    by_cases ht : dictHas df "text" = true
    · simp only [ht, if_true] at h ⊢
      cases hid : dictGet df "_id" with
      | none => simp [hid]
      | some v =>
        simp only [hid] at h ⊢
        cases v with
        | s title =>
          cases hl : get_labels title st_pos st_ner with
          | error e => simp [hl]
          | ok lm => simp [hl] at h
        | strs xs => simp
        | lab lm => simp
    · simp [ht] at h

theorem processDoc_of_true (parse : String → String → Article)
    (st_pos st_ner : List String → List (String × String)) (st : Store) (doc : RawDoc)
    (h : (processDoc parse st_pos st_ner st doc).2 = true) :
    ∃ ins, (processDoc parse st_pos st_ner st doc).1 =
        { prnewswire := markPulled st.prnewswire doc._id,
          pr_realtime := st.pr_realtime ++ ins } ∧
      (ins = [] ∨ ∃ r, ins = [r]) := by
  unfold processDoc at h ⊢
  cases hf : featurize parse doc with
  | error e => simp [hf] at h
  | ok df =>
    simp only [hf] at h ⊢
    by_cases ht : dictHas df "text" = true
    · simp only [ht, if_true] at h ⊢
      cases hid : dictGet df "_id" with
      | none => simp [hid] at h
      | some v =>
        simp only [hid] at h ⊢
        cases v with
        | s title =>
          cases hl : get_labels title st_pos st_ner with
          | error e => simp [hl] at h
          | ok lm =>
            refine ⟨[dictSet df "label" (Val.lab lm)], ?_, Or.inr ⟨_, rfl⟩⟩
            simp [hl]
        | strs xs => simp at h
        | lab lm => simp at h
    · simp only [Bool.not_eq_true] at ht
      simp only [ht] at h ⊢
      exact ⟨[], by simp, Or.inl rfl⟩

theorem processDoc_insert_iff (parse : String → String → Article)
    (st_pos st_ner : List String → List (String × String)) (st : Store) (doc : RawDoc)
    (df : FeatDict) (hf : featurize parse doc = .ok df)
    (h : (processDoc parse st_pos st_ner st doc).2 = true) :
    ((processDoc parse st_pos st_ner st doc).1.pr_realtime ≠ st.pr_realtime ↔
      dictHas df "text" = true) := by
  unfold processDoc at h ⊢
  simp only [hf] at h ⊢
  by_cases ht : dictHas df "text" = true
  · simp only [ht, if_true] at h ⊢
    cases hid : dictGet df "_id" with
    | none => simp [hid] at h
    | some v =>
      simp only [hid] at h ⊢
      cases v with
      | s title =>
        cases hl : get_labels title st_pos st_ner with
        | error e => simp [hl] at h
        | ok lm =>
          have hne : st.pr_realtime ++ [dictSet df "label" (Val.lab lm)] ≠ st.pr_realtime := by
            intro hcon
            have := congrArg List.length hcon
            simp at this
          simp [hl, hne]
      | strs xs => simp at h
      | lab lm => simp at h
  · simp only [Bool.not_eq_true] at ht
    simp [ht]

/-! ### Lemmas about `markPulled` and the main loop -/

theorem markPulled_map_id (l : List RawDoc) (i : String) :
    (markPulled l i).map RawDoc._id = l.map RawDoc._id := by
  induction l with
  | nil => rfl
  | cons d rest ih =>
    simp only [markPulled]
    by_cases hd : d._id == i
    · simp [hd]
    · simp [hd, ih]

theorem markPulled_unmarked : ∀ (l : List RawDoc) (i : String) (e : RawDoc),
    (l.map RawDoc._id).Nodup → e ∈ markPulled l i → e.pulled = none →
    e ∈ l ∧ e._id ≠ i := by
  intro l
  induction l with
  | nil => intro i e _ he _; simp [markPulled] at he
  | cons d rest ih =>
    intro i e hnd he hp
    simp only [markPulled] at he
    simp only [List.map_cons, List.nodup_cons] at hnd
    by_cases hd : d._id == i
    · rw [if_pos hd] at he
      rcases List.mem_cons.mp he with he | he
      · subst he
        simp at hp
      · have hid : d._id = i := by simpa using hd
        refine ⟨List.mem_cons_of_mem _ he, ?_⟩
        intro hei
        apply hnd.1
        rw [hid, ← hei]
        exact List.mem_map_of_mem _ he
    · rw [if_neg hd] at he
      rcases List.mem_cons.mp he with he | he
      · subst he
        exact ⟨List.mem_cons_self _ _, by simpa using hd⟩
      · obtain ⟨h1, h2⟩ := ih i e hnd.2 he hp
        exact ⟨List.mem_cons_of_mem _ h1, h2⟩

theorem sourceFilter_pulled {e : RawDoc} (h : sourceFilter e = true) : e.pulled = none := by
  simp only [sourceFilter, Bool.and_eq_true] at h
  exact Option.isNone_iff_eq_none.mp h.2

theorem runAux_filter_nil : ∀ (docs : List RawDoc) (parse : String → String → Article)
    (st_pos st_ner : List String → List (String × String)) (st : Store),
    (st.prnewswire.map RawDoc._id).Nodup →
    (∀ e ∈ st.prnewswire, sourceFilter e = true → e._id ∈ docs.map RawDoc._id) →
    (runAux parse st_pos st_ner st docs).2 = true →
    (runAux parse st_pos st_ner st docs).1.prnewswire.filter sourceFilter = [] := by
  intro docs
  induction docs with
  | nil =>
    intro parse pt nt st _ hcov _
    simp only [runAux]
    rw [List.filter_eq_nil_iff]
    intro e he
    intro hsf
    exact absurd (hcov e he hsf) (by simp)
  | cons d ds ih =>
    intro parse pt nt st hnd hcov hflag
    simp only [runAux] at hflag ⊢
    cases hb : (processDoc parse pt nt st d).2 with
    | false => simp [hb] at hflag
    | true =>
      simp only [hb, if_true] at hflag ⊢
      obtain ⟨ins, hst, -⟩ := processDoc_of_true parse pt nt st d hb
      have hprn : (processDoc parse pt nt st d).1.prnewswire = markPulled st.prnewswire d._id := by
        rw [hst]
      have hnd1 : ((processDoc parse pt nt st d).1.prnewswire.map RawDoc._id).Nodup := by
        rw [hprn, markPulled_map_id]
        exact hnd
      refine ih parse pt nt _ hnd1 ?_ hflag
      intro e he hsf
      rw [hprn] at he
      obtain ⟨hmem, hne⟩ :=
        markPulled_unmarked st.prnewswire d._id e hnd he (sourceFilter_pulled hsf)
      have := hcov e hmem hsf
      simp only [List.map_cons, List.mem_cons] at this
      rcases this with h1 | h1
      · exact absurd h1 hne
      · exact h1

/-! ### Lemmas about the label map machinery -/

theorem mem_range'_one {m s n : Nat} : m ∈ List.range' s n ↔ s ≤ m ∧ m < s + n := by
  rw [List.mem_range']
  constructor
  · rintro ⟨i, hi, rfl⟩
    omega
  · rintro ⟨h1, h2⟩
    exact ⟨m - s, by omega, by omega⟩

/-- Label maps of the canonical shape built by `get_labels`: entry `i` keyed
`str(i)` with features `ents i`, for `i` in `[s, s+n)`. -/
def rangeMap (s n : Nat) (ents : Nat → LabelFeat) : LabelMap :=
  (List.range' s n).map (fun i => (natKey i, ents i))

theorem labSet_fresh : ∀ (lab : LabelMap) (key : String) (v : LabelFeat),
    key ∉ labKeys lab → labSet lab key v = lab ++ [(key, v)] := by
  intro lab
  induction lab with
  | nil => intro key v _; rfl
  | cons kv rest ih =>
    intro key v hk
    obtain ⟨k1, v1⟩ := kv
    simp only [labKeys, List.map_cons, List.mem_cons, not_or] at hk
    simp only [labSet]
    rw [if_neg (by simp only [beq_iff_eq]; exact fun hc => hk.1 hc.symm)]
    rw [ih key v hk.2]
    rfl

theorem labSetField_notMem : ∀ (lab : LabelMap) (key : String) (f : LabelFeat → LabelFeat),
    key ∉ labKeys lab → labSetField lab key f = .error () := by
  intro lab
  induction lab with
  | nil => intro key f _; rfl
  | cons kv rest ih =>
    intro key f hk
    obtain ⟨k1, v1⟩ := kv
    simp only [labKeys, List.map_cons, List.mem_cons, not_or] at hk
    simp only [labSetField]
    rw [if_neg (by simp only [beq_iff_eq]; exact fun hc => hk.1 hc.symm)]
    rw [ih key f hk.2]
    rfl

theorem natKey_notMem_range' {k s n : Nat} (h : k < s ∨ s + n ≤ k) :
    natKey k ∉ (List.range' s n).map natKey := by
  intro hmem
  obtain ⟨j, hj, hjk⟩ := List.mem_map.mp hmem
  have := natKey_inj _ _ hjk
  subst this
  rcases mem_range'_one.mp hj with ⟨h1, h2⟩
  omega

theorem labKeys_rangeMap (s n : Nat) (ents : Nat → LabelFeat) :
    labKeys (rangeMap s n ents) = (List.range' s n).map natKey := by
  simp [labKeys, rangeMap, List.map_map, Function.comp]

theorem rangeMap_succ (s n : Nat) (ents : Nat → LabelFeat) :
    rangeMap s (n + 1) ents = (natKey s, ents s) :: rangeMap (s + 1) n ents := by
  rw [rangeMap, List.range'_succ, List.map_cons]
  rfl

theorem labSetField_rangeMap : ∀ (n s k : Nat) (ents : Nat → LabelFeat)
    (f : LabelFeat → LabelFeat), s ≤ k → k < s + n →
    labSetField (rangeMap s n ents) (natKey k) f =
      .ok (rangeMap s n (fun i => if i = k then f (ents i) else ents i)) := by
  intro n
  induction n with
  | zero => intro s k ents f h1 h2; omega
  | succ n ih =>
    intro s k ents f h1 h2
    rw [rangeMap_succ, rangeMap_succ]
    by_cases hsk : s = k
    · subst hsk
      simp only [labSetField]
      rw [if_pos (by simp)]
      have htail : rangeMap (s + 1) n (fun i => if i = s then f (ents i) else ents i) =
          rangeMap (s + 1) n ents := by
        rw [rangeMap, rangeMap]
        apply List.map_congr_left
        intro a ha
        rcases mem_range'_one.mp ha with ⟨ha1, _⟩
        rw [if_neg (by omega)]
      rw [htail]
      simp
    · have hne : ¬((natKey s == natKey k) = true) := by
        simp only [beq_iff_eq]
        intro hc
        exact hsk (natKey_inj _ _ hc)
      simp only [labSetField]
      rw [if_neg hne]
      rw [ih (s + 1) k ents f (by omega) (by omega)]
      rw [if_neg hsk]
      rfl

/-- `tagFold` starting at position `k` (for the induction). -/
def tagFoldFrom (g : String → LabelFeat → LabelFeat) (k : Nat)
    (tpls : List (String × String)) (lab : LabelMap) : Except Unit LabelMap :=
  (List.enumFrom k tpls).foldlM (fun l ip => labSetField l (natKey ip.1) (g ip.2.2)) lab

theorem tagFold_eq_from (g : String → LabelFeat → LabelFeat)
    (tpls : List (String × String)) (lab : LabelMap) :
    tagFold g tpls lab = tagFoldFrom g 0 tpls lab := rfl

theorem tagFoldFrom_cons (g : String → LabelFeat → LabelFeat) (k : Nat) (w t : String)
    (tpls : List (String × String)) (lab : LabelMap) :
    tagFoldFrom g k ((w, t) :: tpls) lab =
      (labSetField lab (natKey k) (g t)) >>= fun l1 => tagFoldFrom g (k + 1) tpls l1 := rfl

theorem ok_bind (x : LabelMap) (f : LabelMap → Except Unit LabelMap) :
    ((Except.ok x : Except Unit LabelMap) >>= f) = f x := rfl

theorem tagFoldFrom_ok : ∀ (tpls : List (String × String)) (k n : Nat)
    (ents : Nat → LabelFeat) (g : String → LabelFeat → LabelFeat),
    k + tpls.length ≤ n →
    tagFoldFrom g k tpls (rangeMap 0 n ents) =
      .ok (rangeMap 0 n (fun i =>
        if k ≤ i ∧ i < k + tpls.length then g ((tpls.getD (i - k) ("", "")).2) (ents i)
        else ents i)) := by
  intro tpls
  induction tpls with
  | nil =>
    intro k n ents g _
    show Except.ok (rangeMap 0 n ents) = _
    refine congrArg Except.ok ?_
    rw [rangeMap, rangeMap]
    apply List.map_congr_left
    intro a _
    refine congrArg (fun x => (natKey a, x)) ?_
    rw [if_neg (by simp only [List.length_nil]; omega)]
  | cons wt tpls ih =>
    intro k n ents g hlen
    obtain ⟨w, t⟩ := wt
    simp only [List.length_cons] at hlen ⊢
    rw [tagFoldFrom_cons]
    rw [labSetField_rangeMap n 0 k ents (g t) (by omega) (by omega)]
    rw [ok_bind]
    rw [ih (k + 1) n _ g (by omega)]
    refine congrArg Except.ok ?_
    rw [rangeMap, rangeMap]
    apply List.map_congr_left
    intro a _
    refine congrArg (fun x => (natKey a, x)) ?_
    by_cases h1 : a = k
    · subst h1
      rw [if_neg (by omega), if_pos rfl, if_pos (by omega)]
      simp
    · by_cases h2 : k + 1 ≤ a ∧ a < k + 1 + tpls.length
      · rw [if_pos h2, if_neg h1, if_pos (by omega)]
        have hak : a - k = (a - (k + 1)) + 1 := by omega
        rw [hak, List.getD_cons_succ]
      · rw [if_neg h2, if_neg h1, if_neg (by omega)]

theorem tagFoldFrom_err : ∀ (tpls : List (String × String)) (k n : Nat)
    (ents : Nat → LabelFeat) (g : String → LabelFeat → LabelFeat),
    tpls ≠ [] → n < k + tpls.length →
    tagFoldFrom g k tpls (rangeMap 0 n ents) = .error () := by
  intro tpls
  induction tpls with
  | nil => intro k n ents g hne _; exact absurd rfl hne
  | cons wt tpls ih =>
    intro k n ents g _ hbig
    obtain ⟨w, t⟩ := wt
    simp only [List.length_cons] at hbig
    rw [tagFoldFrom_cons]
    by_cases hk : k < n
    · rw [labSetField_rangeMap n 0 k ents (g t) (by omega) (by omega)]
      rw [ok_bind]
      cases tpls with
      | nil => exfalso; simp only [List.length_nil] at hbig; omega
      | cons wt2 tpls2 =>
        exact ih (k + 1) n _ g (by simp) (by simp only [List.length_cons] at hbig ⊢; omega)
    · rw [labSetField_notMem _ _ _ (by rw [labKeys_rangeMap]; exact natKey_notMem_range' (by omega))]
      rfl

/-- The token-feature record built by the loop body of `get_labels`. -/
def baseFeat (n i : Nat) (w : String) : LabelFeat :=
  { word := w
    all_lower := py_islower w
    all_upper := py_isupper w
    word_pct := (i : ℚ) / (n : ℚ)
    POS := none
    ner := none }

theorem buildStep_eq (n : Nat) (lab : LabelMap) (i : Nat) (w : String) (hn : n ≠ 0) :
    buildStep n lab (i, w) = .ok (labSet lab (natKey i) (baseFeat n i w)) := by
  simp [buildStep, pyDiv, hn, baseFeat]

theorem build_go : ∀ (ws : List String) (k n : Nat) (lab : LabelMap), n ≠ 0 →
    labKeys lab = (List.range' 0 k).map natKey →
    List.foldlM (buildStep n) lab (List.enumFrom k ws) =
      .ok (lab ++ (List.enumFrom k ws).map (fun iw => (natKey iw.1, baseFeat n iw.1 iw.2))) := by
  intro ws
  induction ws with
  | nil =>
    intro k n lab hn hkeys
    show Except.ok lab = _
    simp
  | cons w ws ih =>
    intro k n lab hn hkeys
    rw [List.enumFrom_cons, List.foldlM_cons]
    rw [buildStep_eq n lab k w hn]
    rw [ok_bind]
    have hfresh : natKey k ∉ labKeys lab := by
      rw [hkeys]
      exact natKey_notMem_range' (by omega)
    rw [labSet_fresh lab (natKey k) (baseFeat n k w) hfresh]
    have hkeys1 : labKeys (lab ++ [(natKey k, baseFeat n k w)]) =
        (List.range' 0 (k + 1)).map natKey := by
      simp only [labKeys, List.map_append, List.map_cons, List.map_nil]
      rw [show (lab.map Prod.fst : List String) = labKeys lab from rfl, hkeys]
      rw [List.range'_concat]
      simp
    rw [ih (k + 1) n _ hn hkeys1]
    rw [List.map_cons]
    rw [List.append_assoc]
    rfl

theorem enumFrom_baseFeat_eq : ∀ (ws : List String) (k n : Nat),
    (List.enumFrom k ws).map (fun iw => (natKey iw.1, baseFeat n iw.1 iw.2)) =
      (List.range' k ws.length).map (fun i => (natKey i, baseFeat n i (ws.getD (i - k) ""))) := by
  intro ws
  induction ws with
  | nil => intro k n; rfl
  | cons w ws ih =>
    intro k n
    rw [List.enumFrom_cons, List.map_cons, List.length_cons, List.range'_succ, List.map_cons]
    refine congrArg₂ List.cons ?_ ?_
    · simp
    · rw [ih (k + 1) n]
      apply List.map_congr_left
      intro a ha
      rcases mem_range'_one.mp ha with ⟨h1, _⟩
      refine congrArg (fun x => (natKey a, baseFeat n a x)) ?_
      have hak : a - k = (a - (k + 1)) + 1 := by omega
      rw [hak, List.getD_cons_succ]

theorem build_base (ws : List String) (hws : ws ≠ []) :
    List.foldlM (buildStep ws.length) ([] : LabelMap) ws.enum =
      .ok (rangeMap 0 ws.length (fun i => baseFeat ws.length i (ws.getD i ""))) := by
  have hn : ws.length ≠ 0 := by
    intro hc
    exact hws (List.length_eq_zero.mp hc)
  have h0 : labKeys ([] : LabelMap) = (List.range' 0 0).map natKey := rfl
  rw [show ws.enum = List.enumFrom 0 ws from rfl]
  rw [build_go ws 0 ws.length [] hn h0]
  rw [enumFrom_baseFeat_eq ws 0 ws.length]
  refine congrArg Except.ok ?_
  rw [List.nil_append, rangeMap]
  apply List.map_congr_left
  intro a _
  simp

theorem get_labels_eq (title : String)
    (st_pos st_ner : List String → List (String × String)) (b1 : LabelMap)
    (h1 : List.foldlM (buildStep (pySplit title).length) ([] : LabelMap)
      (pySplit title).enum = .ok b1)
    (b2 : LabelMap) (h2 : get_POS title b1 st_pos = .ok b2)
    (b3 : LabelMap) (h3 : get_ner title b2 st_ner = .ok b3) :
    get_labels title st_pos st_ner = .ok b3 := by
  unfold get_labels
  simp only [h1, h2, h3]

theorem map_snd_get? (l : List (String × String)) (a : Nat) (h : a < l.length) :
    (l.map Prod.snd).get? a = some ((l.getD a ("", "")).2) := by
  rw [List.get?_map, List.get?_eq_get h, List.getD_eq_get?, List.get?_eq_get h]
  rfl

theorem get_labels_spec (title : String)
    (st_pos st_ner : List String → List (String × String))
    (hp : (st_pos (pySplit title)).length = (pySplit title).length)
    (hn : (st_ner (pySplit title)).length = (pySplit title).length) :
    get_labels title st_pos st_ner =
      .ok (labelMapSpec (pySplit title) ((st_pos (pySplit title)).map Prod.snd)
        ((st_ner (pySplit title)).map Prod.snd)) := by
  by_cases hws : pySplit title = []
  · have hp0 : st_pos (pySplit title) = [] := by
      apply List.length_eq_zero.mp
      rw [hp, hws]
      rfl
    have hn0 : st_ner (pySplit title) = [] := by
      apply List.length_eq_zero.mp
      rw [hn, hws]
      rfl
    refine Eq.trans (get_labels_eq title st_pos st_ner [] ?_ [] ?_ [] ?_) ?_
    · rw [hws]; rfl
    · rw [get_POS, hp0]; rfl
    · rw [get_ner, hn0]; rfl
    · rw [hp0, hn0, hws]; rfl
  · have hlp : 0 + (st_pos (pySplit title)).length ≤ (pySplit title).length := by omega
    have hln : 0 + (st_ner (pySplit title)).length ≤ (pySplit title).length := by omega
    refine Eq.trans (get_labels_eq title st_pos st_ner _ (build_base _ hws) _
      (tagFoldFrom_ok (st_pos (pySplit title)) 0 (pySplit title).length _ setPOS hlp) _
      (tagFoldFrom_ok (st_ner (pySplit title)) 0 (pySplit title).length _ setNer hln)) ?_
    · refine congrArg Except.ok ?_
      rw [labelMapSpec, rangeMap, List.range_eq_range']
      apply List.map_congr_left
      intro a ha
      rcases mem_range'_one.mp ha with ⟨-, ha2⟩
      have haL : a < (pySplit title).length := by omega
      have haP : a < (st_pos (pySplit title)).length := by omega
      have haN : a < (st_ner (pySplit title)).length := by omega
      rw [if_pos ⟨Nat.zero_le a, by omega⟩, if_pos ⟨Nat.zero_le a, by omega⟩]
      rw [map_snd_get? _ a haP, map_snd_get? _ a haN]
      simp only [setPOS, setNer, baseFeat, Nat.sub_zero]

theorem rangeMap_get? (s n : Nat) (ents : Nat → LabelFeat) (i : Nat) (h : i < n) :
    (rangeMap s n ents).get? i = some (natKey (s + i), ents (s + i)) := by
  rw [rangeMap, List.get?_map]
  rw [List.get?_eq_getElem?]
  rw [List.getElem?_range' s 1 h]
  simp

theorem tag_mismatch_generic (tpls : List (String × String)) (n : Nat)
    (ents : Nat → LabelFeat) (g : String → LabelFeat → LabelFeat) :
    (n < tpls.length → tagFoldFrom g 0 tpls (rangeMap 0 n ents) = .error ()) ∧
    (tpls.length ≤ n → ∃ lab1, tagFoldFrom g 0 tpls (rangeMap 0 n ents) = .ok lab1 ∧
      ∀ i, tpls.length ≤ i → i < n → lab1.get? i = some (natKey i, ents i)) := by
  constructor
  · intro h
    apply tagFoldFrom_err
    · intro hc
      subst hc
      simp at h
    · omega
  · intro h
    refine ⟨_, tagFoldFrom_ok tpls 0 n ents g (by omega), ?_⟩
    intro i h1 h2
    rw [rangeMap_get? 0 n _ i h2]
    simp only [Nat.zero_add]
    rw [if_neg (by omega)]

/-! ### The claims -/

/-- C4: for every input record, the derived `text` field equals the trimmed
substring of the body text after the first occurrence of the literal
delimiter `"/ -- "` when that delimiter is present, and is null when the
delimiter is absent or the body is missing. -/
theorem c4_text_field (d : FEInput) : fe_text d = text_spec d.body :=
  fe_text_eq_spec d

/-- The C5 counterexample input: an empty date string. -/
def c5Input : FEInput :=
  { body := none
    date := some ""
    meta_desc := some "LONDON x"
    authors := none }

/-- C5 counterexample: with `date = ""` the date prefix is the empty string,
which occurs in every meta description (Python `find` returns 0), so the
claim predicts the location `""` (the trimmed text before the occurrence);
the code instead yields null, because `split` on the empty anchor raises a
`ValueError` that the surrounding guard converts to `None`. -/
theorem c5_cex :
    fe_location c5Input = none ∧
    location_spec c5Input.date c5Input.meta_desc = some "" := ⟨rfl, rfl⟩

/-- C5 (amended): the derived location equals the trimmed meta-description
text before the first occurrence of the (up to) 3-character date prefix
when that prefix is non-empty and occurs in the meta description, and is
null otherwise; an empty date prefix yields null even though it trivially
occurs, and any missing input yields null. -/
theorem c5_location_field (d : FEInput) :
    fe_location d = location_amended d.date d.meta_desc :=
  fe_location_eq_amended d

/-- The C1 counterexample input: a body that ends in the delimiter, so the
derived text is the empty string (non-null but falsy). -/
def c1Input : FEInput :=
  { body := some "NEW YORK /PRNewswire/ -- "
    date := some "Jan 5, 2015"
    meta_desc := some "LONDON Jan news"
    authors := some ["Acme Corp"] }

/-- C1 counterexample: an input on which all three derived fields are
non-null (the text is the empty string, after a body that ends in the
delimiter), yet `feature_engineering` returns the empty result, because the
gate tests Python truthiness rather than non-nullness. -/
theorem c1_cex :
    feature_engineering c1Input = none ∧
    (fe_text c1Input).isSome = true ∧
    (fe_location c1Input).isSome = true ∧
    (fe_org c1Input).isSome = true :=
  ⟨rfl, rfl, rfl, rfl⟩

/-- C1 (amended): a FeatureRecord is persisted iff `text`, `location` and
`org` are all truthy (non-null and non-empty): `feature_engineering`
returns the full triple exactly when all three are truthy; a completed loop
iteration inserts into the result store exactly when the featurized dict
carries the `text` key; and that key is present exactly when
`feature_engineering` returned the triple. -/
theorem c1_persist_iff_truthy :
    (∀ d : FEInput, (feature_engineering d).isSome =
      (truthy (fe_text d) && truthy (fe_org d) && truthy (fe_location d))) ∧
    (∀ (parse : String → String → Article)
      (st_pos st_ner : List String → List (String × String)) (st : Store) (doc : RawDoc)
      (df : FeatDict), featurize parse doc = .ok df →
      (processDoc parse st_pos st_ner st doc).2 = true →
      ((processDoc parse st_pos st_ner st doc).1.pr_realtime ≠ st.pr_realtime ↔
        dictHas df "text" = true)) ∧
    (∀ (parse : String → String → Article) (doc : RawDoc) (pd : PageData),
      featurize_page_soup doc.page_soup doc.link = .ok pd →
      ∃ df, featurize parse doc = .ok df ∧
        dictHas df "text" = (feature_engineering (feInputAt parse doc pd)).isSome) := by
  refine ⟨fe_isSome_eq_truthy, processDoc_insert_iff, ?_⟩
  intro parse doc pd hp
  cases hfe : feature_engineering (feInputAt parse doc pd) with
  | none =>
    exact ⟨_, featurize_ok_of_none parse doc pd hp hfe, by
      rw [dictHas_outDictPartial]; rfl⟩
  | some tlo =>
    obtain ⟨t, l, o⟩ := tlo
    exact ⟨_, featurize_ok_of_some parse doc pd t l o hp hfe, by
      rw [dictHas_outDictFull]; rfl⟩

theorem c1_witness :
    (((processDoc cParse cPT cNT cStorePartial cDocPartial).1.pr_realtime ≠
        cStorePartial.pr_realtime ↔
      dictHas (outDictPartial (cParse cDocPartial.link cDocPartial.body_soup) cDocPartial
        ⟨"", "", "", ""⟩) "text" = true) ∧
    ∃ df, featurize cParse cDocPartial = .ok df ∧
      dictHas df "text" =
        (feature_engineering (feInputAt cParse cDocPartial ⟨"", "", "", ""⟩)).isSome) := by
  constructor
  · exact c1_persist_iff_truthy.2.1 cParse cPT cNT cStorePartial cDocPartial _ rfl rfl
  · exact c1_persist_iff_truthy.2.2 cParse cDocPartial ⟨"", "", "", ""⟩ rfl

/-- C2 counterexample: on a listing page with no news-release anchor for the
link, the unprotected navigation at the top of `featurize_page_soup` raises
an uncaught `AttributeError`; the call aborts instead of returning a
PageContext dict. -/
theorem c2_cex : featurize_page_soup cDomCrash "L" = .error () := rfl

/-- C2 (amended): once the unprotected anchor-and-ancestor navigation
succeeds, the four sub-extractions are computed independently, each
defaulting to the empty string on its own lookup failure, and the call
returns a PageContext with all four keys; but a failure in the initial
navigation (missing anchor or missing ancestor) aborts the whole call. -/
theorem c2_page_context :
    (∀ (d : Dom) (link : String) (s? : Option DomNode), navRelease d link = .ok s? →
      featurize_page_soup d link = .ok
        { date := extract_date d s?, time := extract_time d s?,
          summary := extract_summary d link, img := extract_img d link }) ∧
    (∀ (d : Dom) (link : String), navRelease d link = .error () →
      featurize_page_soup d link = .error ()) ∧
    (∀ d : Dom, extract_date d none = "" ∧ extract_time d none = "") ∧
    (∀ (d : Dom) (s : DomNode), d.findClassWithin s "date" = none →
      extract_date d (some s) = "") ∧
    (∀ (d : Dom) (link : String), d.findHref link = none → extract_img d link = "") ∧
    (∀ (d : Dom) (link : String), d.findClassHref "news-release" link = none →
      extract_summary d link = "") := by
  refine ⟨?_, ?_, ?_, ?_, ?_, ?_⟩
  · intro d link s? h
    rw [featurize_page_soup, h]
  · intro d link h
    rw [featurize_page_soup, h]
  · intro d
    exact ⟨rfl, rfl⟩
  · intro d s h
    rw [extract_date, h]
  · intro d link h
    rw [extract_img, h]
  · intro d link h
    rw [extract_summary, h]

theorem c2_witness :
    featurize_page_soup cDomPartial "L" = .ok
      { date := extract_date cDomPartial none, time := extract_time cDomPartial none,
        summary := extract_summary cDomPartial "L", img := extract_img cDomPartial "L" } :=
  c2_page_context.1 cDomPartial "L" none rfl

/-- C3 counterexample: the single matching document is visited (selected by
the query and handed to `featurize`), but its page-context navigation
raises, aborting the pass before `update_one` runs; the processed marker is
never set for that document. -/
theorem c3_cex :
    (runMain cParse cPT cNT cStoreCrash).1.prnewswire.map RawDoc.pulled = [none] ∧
    (runMain cParse cPT cNT cStoreCrash).2 = false ∧
    cStoreCrash.prnewswire.filter sourceFilter = [cDocCrash] := by decide

/-- C3 (amended): for every document whose loop iteration completes, the
processed-marker update runs exactly once, unconditionally and regardless
of whether a FeatureRecord was persisted (zero or one insertions); an
iteration aborted by an uncaught exception leaves the stores unchanged and
never marks that document. -/
theorem c3_mark_once :
    (∀ (parse : String → String → Article)
      (st_pos st_ner : List String → List (String × String)) (st : Store) (doc : RawDoc),
      (processDoc parse st_pos st_ner st doc).2 = true →
      ∃ ins, (processDoc parse st_pos st_ner st doc).1 =
          { prnewswire := markPulled st.prnewswire doc._id,
            pr_realtime := st.pr_realtime ++ ins } ∧ (ins = [] ∨ ∃ r, ins = [r])) ∧
    (∀ (parse : String → String → Article)
      (st_pos st_ner : List String → List (String × String)) (st : Store) (doc : RawDoc),
      (processDoc parse st_pos st_ner st doc).2 = false →
      (processDoc parse st_pos st_ner st doc).1 = st) :=
  ⟨processDoc_of_true, processDoc_of_false⟩

theorem c3_witness :
    ∃ ins, (processDoc cParse cPT cNT cStorePartial cDocPartial).1 =
        { prnewswire := markPulled cStorePartial.prnewswire cDocPartial._id,
          pr_realtime := cStorePartial.pr_realtime ++ ins } ∧ (ins = [] ∨ ∃ r, ins = [r]) :=
  c3_mark_once.1 cParse cPT cNT cStorePartial cDocPartial rfl

/-- A label-map entry with literal features, for concrete tagger runs. -/
def cFeat (w : String) : LabelFeat :=
  { word := w, all_lower := true, all_upper := false, word_pct := 0, POS := none, ner := none }

/-- A two-entry label map for the headline `"a b"`. -/
def cLab2 : LabelMap := [(natKey 0, cFeat "a"), (natKey 1, cFeat "b")]

/-- A tagger stub that always returns a single tag. -/
def cShortTagger : List String → List (String × String) := fun _ => [("a", "DT")]

/-- A tagger stub that always returns three tags. -/
def cLongTagger : List String → List (String × String) :=
  fun _ => [("a", "DT"), ("b", "NN"), ("c", "VB")]

/-- C6 counterexample: the POS tagger returns one tag for the two-token
headline `"a b"`; `get_POS` neither raises nor reports the mismatch — it
returns successfully, with entry `"1"` silently left without a POS tag. -/
theorem c6_cex :
    (cShortTagger (pySplit "a b")).length ≠ (pySplit "a b").length ∧
    get_POS "a b" cLab2 cShortTagger =
      .ok [(natKey 0, { cFeat "a" with POS := some "DT" }), (natKey 1, cFeat "b")] := by
  exact ⟨by decide, rfl⟩

/-- C6 (amended): a tagger returning more tokens than the headline's
whitespace token count is surfaced as an error by `get_POS` / `get_ner`
(the Python `KeyError` on the missing index); but a tagger returning fewer
tokens is silently merged: the call succeeds and every trailing entry keeps
its untagged feature record unchanged. -/
theorem c6_tagger_mismatch (title : String)
    (st_pos st_ner : List String → List (String × String)) (ents : Nat → LabelFeat) :
    (((pySplit title).length < (st_pos (pySplit title)).length →
        get_POS title (rangeMap 0 (pySplit title).length ents) st_pos = .error ()) ∧
      ((st_pos (pySplit title)).length ≤ (pySplit title).length →
        ∃ lab1, get_POS title (rangeMap 0 (pySplit title).length ents) st_pos = .ok lab1 ∧
          ∀ i, (st_pos (pySplit title)).length ≤ i → i < (pySplit title).length →
            lab1.get? i = some (natKey i, ents i))) ∧
    (((pySplit title).length < (st_ner (pySplit title)).length →
        get_ner title (rangeMap 0 (pySplit title).length ents) st_ner = .error ()) ∧
      ((st_ner (pySplit title)).length ≤ (pySplit title).length →
        ∃ lab1, get_ner title (rangeMap 0 (pySplit title).length ents) st_ner = .ok lab1 ∧
          ∀ i, (st_ner (pySplit title)).length ≤ i → i < (pySplit title).length →
            lab1.get? i = some (natKey i, ents i))) :=
  ⟨tag_mismatch_generic (st_pos (pySplit title)) (pySplit title).length ents setPOS,
   tag_mismatch_generic (st_ner (pySplit title)) (pySplit title).length ents setNer⟩

theorem c6_witness :
    get_POS "a b" (rangeMap 0 (pySplit "a b").length (fun _ => cFeat "w")) cLongTagger =
      .error () :=
  (c6_tagger_mismatch "a b" cLongTagger cLongTagger (fun _ => cFeat "w")).1.1 (by decide)

/-- C7: for every headline whose POS and NER taggers return exactly one tag
per whitespace token, `get_labels` succeeds and returns exactly the label
map with one entry per token in left-to-right order: entry `i` is keyed
`str(i)` (so there are exactly `n` keys `"0"`..`"n-1"`, no gaps and no
duplicates), holds the `i`-th raw token as `word`, and has `word_pct`
equal to `i / n`. -/
theorem c7_label_map (title : String)
    (st_pos st_ner : List String → List (String × String))
    (hp : (st_pos (pySplit title)).length = (pySplit title).length)
    (hn : (st_ner (pySplit title)).length = (pySplit title).length) :
    get_labels title st_pos st_ner =
      .ok (labelMapSpec (pySplit title) ((st_pos (pySplit title)).map Prod.snd)
        ((st_ner (pySplit title)).map Prod.snd)) ∧
    (labelMapSpec (pySplit title) ((st_pos (pySplit title)).map Prod.snd)
      ((st_ner (pySplit title)).map Prod.snd)).length = (pySplit title).length ∧
    labKeys (labelMapSpec (pySplit title) ((st_pos (pySplit title)).map Prod.snd)
      ((st_ner (pySplit title)).map Prod.snd)) =
      (List.range (pySplit title).length).map natKey := by
  refine ⟨get_labels_spec title st_pos st_ner hp hn, ?_, ?_⟩
  · simp [labelMapSpec]
  · simp [labelMapSpec, labKeys, List.map_map]

theorem c7_witness :
    get_labels "Jane Doe Named VP" cPT cNT =
      .ok (labelMapSpec (pySplit "Jane Doe Named VP")
        ((cPT (pySplit "Jane Doe Named VP")).map Prod.snd)
        ((cNT (pySplit "Jane Doe Named VP")).map Prod.snd)) ∧
    (labelMapSpec (pySplit "Jane Doe Named VP")
      ((cPT (pySplit "Jane Doe Named VP")).map Prod.snd)
      ((cNT (pySplit "Jane Doe Named VP")).map Prod.snd)).length =
      (pySplit "Jane Doe Named VP").length ∧
    labKeys (labelMapSpec (pySplit "Jane Doe Named VP")
      ((cPT (pySplit "Jane Doe Named VP")).map Prod.snd)
      ((cNT (pySplit "Jane Doe Named VP")).map Prod.snd)) =
      (List.range (pySplit "Jane Doe Named VP").length).map natKey :=
  c7_label_map "Jane Doe Named VP" cPT cNT (by decide) (by decide)

/-- Modelled from the claim wording (C8): the exact field list the spec
asserts for a persisted FeatureRecord. -/
def claimedFeatureFields : List String :=
  ["_id", "link", "source", "date", "time", "summary", "img", "text", "location",
   "org", "label"]

/-- C8 counterexample: the record persisted by a complete run of the
pipeline also carries the `keywords`, `lang` and `source_url` fields, which
are not in the claimed field list (only `authors`, `meta_desc` and `body`
are deleted before insertion). -/
theorem c8_cex :
    (runMain cParse cPT cNT cStoreFull).1.pr_realtime.map dictKeys =
      [["_id", "link", "source", "keywords", "lang", "source_url", "date", "time",
        "summary", "img", "text", "location", "org", "label"]] ∧
    "keywords" ∉ claimedFeatureFields ∧ "lang" ∉ claimedFeatureFields ∧
    "source_url" ∉ claimedFeatureFields := by
  refine ⟨rfl, by decide, by decide, by decide⟩

/-- C8 (amended): every record persisted by a loop iteration has exactly
the fields `_id`, `link`, `source`, `keywords`, `lang`, `source_url`,
`date`, `time`, `summary`, `img`, `text`, `location`, `org`, `label` —
the claimed list plus `keywords`, `lang` and `source_url`. -/
theorem c8_record_fields (parse : String → String → Article)
    (st_pos st_ner : List String → List (String × String)) (st : Store) (doc : RawDoc)
    (r : FeatDict)
    (h : (processDoc parse st_pos st_ner st doc).1.pr_realtime = st.pr_realtime ++ [r]) :
    dictKeys r = ["_id", "link", "source", "keywords", "lang", "source_url", "date",
      "time", "summary", "img", "text", "location", "org", "label"] := by
  have hne : ∀ x : FeatDict, st.pr_realtime ≠ st.pr_realtime ++ [x] := by
    intro x hc
    have := congrArg List.length hc
    simp at this
  cases hb : (processDoc parse st_pos st_ner st doc).2 with
  | false =>
    rw [processDoc_of_false parse st_pos st_ner st doc hb] at h
    exact absurd h (hne r)
  | true =>
    cases hp : featurize_page_soup doc.page_soup doc.link with
    | error e =>
      cases e
      unfold processDoc at h
      rw [featurize_page_err parse doc hp] at h
      exact absurd h (hne r)
    | ok pd =>
      cases hfe : feature_engineering (feInputAt parse doc pd) with
      | none =>
        unfold processDoc at h
        rw [featurize_ok_of_none parse doc pd hp hfe] at h
        simp only [dictHas_outDictPartial, Bool.false_eq_true, if_false] at h
        exact absurd h (hne r)
      | some tlo =>
        obtain ⟨t, l, o⟩ := tlo
        unfold processDoc at h
        rw [featurize_ok_of_some parse doc pd t l o hp hfe] at h
        simp only [dictHas_outDictFull, if_true] at h
        cases hl : get_labels doc._id st_pos st_ner with
        | error e =>
          rw [show dictGet (outDictFull (parse doc.link doc.body_soup) doc pd t l o) "_id" =
            some (Val.s doc._id) from rfl] at h
          simp only [hl] at h
          exact absurd h (hne r)
        | ok lm =>
          rw [show dictGet (outDictFull (parse doc.link doc.body_soup) doc pd t l o) "_id" =
            some (Val.s doc._id) from rfl] at h
          simp only [hl] at h
          have hr : r = dictSet (outDictFull (parse doc.link doc.body_soup) doc pd t l o)
              "label" (Val.lab lm) := by
            have := List.append_cancel_left h
            simpa using this.symm
          rw [hr]
          exact dictKeys_outDictFull_label (parse doc.link doc.body_soup) doc pd t l o lm

/-- The record inserted by the full-success concrete run. -/
def cRecord : FeatDict :=
  (processDoc cParse cPT cNT cStoreFull cDocFull).1.pr_realtime.getD 0 []

theorem c8_witness :
    dictKeys cRecord = ["_id", "link", "source", "keywords", "lang", "source_url",
      "date", "time", "summary", "img", "text", "location", "org", "label"] :=
  c8_record_fields cParse cPT cNT cStoreFull cDocFull cRecord rfl

/-- C9: running the pipeline over the same store twice with no intervening
scraper activity is idempotent: provided document ids are unique (the
store's `_id` invariant) and the first pass ran to completion, the second
pass's query (source filter plus processed-marker absent) selects zero
documents, so the second run visits nothing, changes nothing and inserts no
duplicate result records. -/
theorem c9_idempotent (parse : String → String → Article)
    (st_pos st_ner : List String → List (String × String)) (st : Store)
    (hnd : (st.prnewswire.map RawDoc._id).Nodup)
    (hrun : (runMain parse st_pos st_ner st).2 = true) :
    (runMain parse st_pos st_ner st).1.prnewswire.filter sourceFilter = [] ∧
    runMain parse st_pos st_ner (runMain parse st_pos st_ner st).1 =
      ((runMain parse st_pos st_ner st).1, true) := by
  have h1 : (runMain parse st_pos st_ner st).1.prnewswire.filter sourceFilter = [] := by
    apply runAux_filter_nil (st.prnewswire.filter sourceFilter) parse st_pos st_ner st hnd
      ?_ hrun
    intro e he hsf
    exact List.mem_map_of_mem _ (List.mem_filter.mpr ⟨he, hsf⟩)
  have h2 : ∀ s2 : Store, s2.prnewswire.filter sourceFilter = [] →
      runMain parse st_pos st_ner s2 = (s2, true) := by
    intro s2 hs2
    rw [runMain, hs2]
    rfl
  exact ⟨h1, h2 _ h1⟩

theorem c9_witness :
    (runMain cParse cPT cNT cStorePartial).1.prnewswire.filter sourceFilter = [] ∧
    runMain cParse cPT cNT (runMain cParse cPT cNT cStorePartial).1 =
      ((runMain cParse cPT cNT cStorePartial).1, true) :=
  c9_idempotent cParse cPT cNT cStorePartial (by decide) rfl

/-- A tagger stub returning no tags (what the external taggers return on an
empty token sequence). -/
def cEmptyTagger : List String → List (String × String) := fun _ => []

/-- C10: for a headline whose whitespace split yields zero tokens,
`get_labels` returns an empty LabelMap without error, provided the taggers
map the empty token list to an empty tag list: the division
`i / float(num_words)` sits inside the per-token loop, which never
executes, so the zero `num_words` never reaches the division — which would
error, as the second conjunct shows. -/
theorem c10_empty_headline (title : String)
    (st_pos st_ner : List String → List (String × String))
    (hws : pySplit title = []) (hp : st_pos [] = []) (hn : st_ner [] = []) :
    get_labels title st_pos st_ner = .ok [] ∧
    pyDiv 0 (pySplit title).length = .error () := by
  constructor
  · apply get_labels_eq title st_pos st_ner []
    · rw [hws]
      rfl
    · rw [get_POS, hws, hp]
      rfl
    · rw [get_ner, hws, hn]
      rfl
  · rw [hws]
    rfl

theorem c10_witness :
    get_labels "   " cEmptyTagger cEmptyTagger = .ok [] ∧
    pyDiv 0 (pySplit "   ").length = .error () :=
  c10_empty_headline "   " cEmptyTagger cEmptyTagger (by decide) rfl rfl
